import Mathlib

/-!
Verification of the MIST distributed training orchestrator
(`mist/runtime/run.py`) and the preprocessing driver
(`src/preprocess_data/preprocess.py`).

The Python code is shallowly embedded: losses and penalties are modelled
as exact rationals, the per-fold setup code and the per-epoch loop are
modelled as executable trace generators whose events mirror the
statements executed by the Python source, and the fallible paths return
an `Option` error mirroring the exception raised.
-/

namespace MIST

/-! ## Composite loss engine (`compute_loss` in `Trainer.train`)

The numeric values returned by the underlying loss-function calls are
abstracted as rationals: `primaryLoss` is the value of the primary
`loss_fn(label, output["prediction"], ...)` call and `headLosses` is the
list of values of `loss_fn(label, p, ...)` for the deep-supervision
heads `p`, in the order `enumerate` visits them. -/

/-- Normalization constant from the source:
`c_norm = 1 / (2 - 2 ** -(len(output["deep_supervision"]) + 1))`. -/
def c_norm (numHeads : ℕ) : ℚ :=
  1 / (2 - ((2 : ℚ) ^ (numHeads + 1))⁻¹)

/-- The deep-supervision accumulation loop from the source:
`for k, p in enumerate(output["deep_supervision"]): loss += 0.5 ** (k + 1) * loss_fn(label, p, ...)`.
The first argument is the running value of `k`. -/
def dsLoop : ℕ → List ℚ → ℚ → ℚ
  | _, [], loss => loss
  | k, headLoss :: rest, loss =>
      dsLoop (k + 1) rest (loss + ((1 : ℚ) / 2) ^ (k + 1) * headLoss)

/-- The value of `loss` in `compute_loss` after the deep-supervision
block and before the VAE and parameter-norm terms: if
`deep_supervision` is enabled, the accumulated sum is rescaled by
`c_norm`; otherwise `loss` is the primary loss unchanged. -/
def deepSupervisionTotal (deep_supervision : Bool) (primaryLoss : ℚ)
    (headLosses : List ℚ) : ℚ :=
  if deep_supervision then
    dsLoop 0 headLosses primaryLoss * c_norm headLosses.length
  else primaryLoss

/-- Flags and penalties of `mist_arguments` consulted by `compute_loss`. -/
structure LossArgs where
  deep_supervision : Bool
  vae_reg : Bool
  vae_penalty : ℚ
  l2_reg : Bool
  l2_penalty : ℚ
  l1_reg : Bool
  l1_penalty : ℚ

/-- The full `compute_loss` body: deep-supervision block, then the VAE
term `loss += vae_penalty * vae_loss`, then the L2 term
`loss += l2_penalty * Σ‖θ‖₂`, then the L1 term
`loss += l1_penalty * Σ‖θ‖₁`. -/
def compute_loss (args : LossArgs) (primaryLoss : ℚ) (headLosses : List ℚ)
    (vaeLoss l2Norm l1Norm : ℚ) : ℚ :=
  let loss := deepSupervisionTotal args.deep_supervision primaryLoss headLosses
  let loss := if args.vae_reg then loss + args.vae_penalty * vaeLoss else loss
  let loss := if args.l2_reg then loss + args.l2_penalty * l2Norm else loss
  let loss := if args.l1_reg then loss + args.l1_penalty * l1Norm else loss
  loss

/-- Sum of the loss weights before normalization, as the spec describes
them: primary weight `1` plus the head weights `0.5^(k+1)` for
`k = 0, …, H-1`. -/
def uncorrectedWeightSum (H : ℕ) : ℚ :=
  1 + ∑ k ∈ Finset.range H, ((1 : ℚ) / 2) ^ (k + 1)

/-- Closed form of the deep-supervision accumulation loop. -/
lemma dsLoop_eq_add_sum (l : List ℚ) : ∀ (k : ℕ) (a : ℚ),
    dsLoop k l a
      = a + ∑ j ∈ Finset.range l.length,
          ((1 : ℚ) / 2) ^ (k + j + 1) * l.getD j 0 := by
  induction l with
  | nil => intro k a; simp [dsLoop]
  | cons x rest ih =>
      intro k a
      rw [dsLoop, ih]
      rw [List.length_cons, Finset.sum_range_succ']
      simp only [List.getD_cons_succ, List.getD_cons_zero]
      have hexp : ∀ j : ℕ, k + 1 + j + 1 = k + (j + 1) + 1 := by omega
      have hsum :
          (∑ j ∈ Finset.range rest.length,
              ((1 : ℚ) / 2) ^ (k + 1 + j + 1) * rest.getD j 0)
            = ∑ j ∈ Finset.range rest.length,
              ((1 : ℚ) / 2) ^ (k + (j + 1) + 1) * rest.getD j 0 := by
        refine Finset.sum_congr rfl ?_
        intro j _
        rw [hexp j]
      rw [hsum]
      ring

/-- C2 helper: the deep-supervision total in spec form. -/
lemma deepSupervisionTotal_true (L0 : ℚ) (Ls : List ℚ) :
    deepSupervisionTotal true L0 Ls
      = (L0 + ∑ k ∈ Finset.range Ls.length,
            ((1 : ℚ) / 2) ^ (k + 1) * Ls.getD k 0)
          * (1 / (2 - ((2 : ℚ) ^ (Ls.length + 1))⁻¹)) := by
  rw [deepSupervisionTotal, if_pos rfl, dsLoop_eq_add_sum, c_norm]
  norm_num

/-- C2: with deep supervision enabled and `H` auxiliary heads with
losses `L_k`, the total computed before the VAE and parameter-norm terms
equals `(L0 + Σ_{k=0}^{H-1} 0.5^(k+1) L_k) * (1 / (2 - 2^-(H+1)))`, for
every `H` (in particular `H = 0, 1, 3`); when the VAE and norm terms are
disabled this is also the value `compute_loss` returns. -/
theorem deep_supervision_total_matches_spec_formula :
    ∀ (L0 : ℚ) (Ls : List ℚ) (vp p2 p1 vaeLoss l2Norm l1Norm : ℚ),
      deepSupervisionTotal true L0 Ls
        = (L0 + ∑ k ∈ Finset.range Ls.length,
              ((1 : ℚ) / 2) ^ (k + 1) * Ls.getD k 0)
            * (1 / (2 - ((2 : ℚ) ^ (Ls.length + 1))⁻¹)) ∧
      compute_loss ⟨true, false, vp, false, p2, false, p1⟩ L0 Ls
          vaeLoss l2Norm l1Norm
        = (L0 + ∑ k ∈ Finset.range Ls.length,
              ((1 : ℚ) / 2) ^ (k + 1) * Ls.getD k 0)
            * (1 / (2 - ((2 : ℚ) ^ (Ls.length + 1))⁻¹)) := by
  intro L0 Ls vp p2 p1 vaeLoss l2Norm l1Norm
  refine ⟨deepSupervisionTotal_true L0 Ls, ?_⟩
  rw [compute_loss]
  simp only [if_neg (Bool.false_ne_true)]
  exact deepSupervisionTotal_true L0 Ls

/-- C3 counterexample: the uncorrected weight sum does not equal
`2 - 2^-(H+1)` (witnessed at `H = 1`, where the sum is `3/2` but the
claimed value is `7/4`), and rescaling by `c_norm` does not keep the
effective total weight equal to `1` (witnessed at `H = 0`, where the
effective weight is `2/3`). -/
theorem uncorrected_weight_sum_not_claimed_value :
    uncorrectedWeightSum 1 ≠ 2 - ((2 : ℚ) ^ (1 + 1))⁻¹ ∧
    uncorrectedWeightSum 0 * c_norm 0 ≠ 1 := by
  constructor <;> norm_num [uncorrectedWeightSum, c_norm, Finset.sum_range_succ]

/-- Geometric closed form of the head-weight sum. -/
lemma uncorrectedWeightSum_closed (H : ℕ) :
    uncorrectedWeightSum H = 2 - ((1 : ℚ) / 2) ^ H := by
  induction H with
  | zero => norm_num [uncorrectedWeightSum]
  | succ n ih =>
      rw [uncorrectedWeightSum, Finset.sum_range_succ,
          ← add_assoc, ← uncorrectedWeightSum, ih, pow_succ]
      ring

/-- Sum of the powers over a constant list of head losses all equal to 1. -/
lemma sum_weights_replicate (H : ℕ) :
    (∑ k ∈ Finset.range H,
        ((1 : ℚ) / 2) ^ (k + 1) * (List.replicate H (1 : ℚ)).getD k 0)
      = ∑ k ∈ Finset.range H, ((1 : ℚ) / 2) ^ (k + 1) := by
  refine Finset.sum_congr rfl ?_
  intro k hk
  have hk' : k < H := Finset.mem_range.mp hk
  have : (List.replicate H (1 : ℚ)).getD k 0 = 1 := by
    rw [List.getD_eq_getElem?_getD, List.getElem?_replicate, if_pos hk']
    rfl
  rw [this, mul_one]

/-- C3 amended: for every number of heads `H`, the uncorrected sum of
the weights equals `2 - 2^-H` (not `2 - 2^-(H+1)`); consequently the
engine's total for unit losses is `(2 - 2^-H) * c_norm H`, and the
effective total weight after rescaling by `c_norm` is strictly below 1
for every `H`, rather than equal to 1. -/
theorem uncorrected_weight_sum_closed_form :
    ∀ H : ℕ,
      uncorrectedWeightSum H = 2 - ((1 : ℚ) / 2) ^ H ∧
      deepSupervisionTotal true 1 (List.replicate H 1)
        = uncorrectedWeightSum H * c_norm H ∧
      uncorrectedWeightSum H * c_norm H < 1 := by
  intro H
  have hx0 : (0 : ℚ) < ((1 : ℚ) / 2) ^ H := by positivity
  have hx1 : ((1 : ℚ) / 2) ^ H ≤ 1 := by
    apply pow_le_one₀ <;> norm_num
  have hinv : ((2 : ℚ) ^ (H + 1))⁻¹ = ((1 : ℚ) / 2) ^ H / 2 := by
    rw [← inv_pow, pow_succ]
    norm_num
    ring
  refine ⟨uncorrectedWeightSum_closed H, ?_, ?_⟩
  · rw [deepSupervisionTotal_true, List.length_replicate,
        sum_weights_replicate, c_norm, uncorrectedWeightSum]
  · rw [uncorrectedWeightSum_closed, c_norm, hinv]
    set x : ℚ := ((1 : ℚ) / 2) ^ H with hxdef
    have hden : (0 : ℚ) < 2 - x / 2 := by linarith
    rw [mul_one_div, div_lt_one hden]
    linarith

/-! ## Per-fold setup (`Trainer.train`, fold-loop prologue)

The statements executed between the train/validation split and the
optimizer construction are modelled as a trace of events together with
the first exception raised, in source order: split, validation-size
check, DALI loader construction, steps-per-epoch default, loss-function
construction, the boundary-loss/DTM check, model construction, DDP
wrapping, optimizer and scheduler construction. -/

/-- Resource-allocation and setup events of the fold prologue. -/
inductive FoldEvent
  | splitPerformed
  | trainLoaderBuilt
  | valLoaderBuilt
  | stepsPerEpochSet
  | lossFnBuilt
  | modelBuilt
  | ddpWrapped
  | optimizerBuilt
  | schedulerBuilt
  deriving DecidableEq, Repr

/-- Exceptions the fold prologue can raise. `configurationError` is
modelled from the spec's error taxonomy for comparison; the source never
raises it (the DTM check raises a plain `ValueError`). -/
inductive FoldError
  | insufficientValidationSet (valSize worldSize : ℕ)
  | valueErrorDtmsRequired (lossName : String)
  | configurationError
  deriving DecidableEq, Repr

/-- The boundary-based loss names tested by
`if self.mist_arguments.loss in ["bl", "hdl", "gsl"]`. -/
def boundaryLosses : List String := ["bl", "hdl", "gsl"]

/-- Fold prologue of `Trainer.train`: events executed before the first
raise, paired with the exception raised (if any). `nVal` is
`len(val_images)` after the split. -/
def foldSetup (useDtms : Bool) (lossName : String) (nVal worldSize : ℕ) :
    List FoldEvent × Option FoldError :=
  let evs := [FoldEvent.splitPerformed]
  if nVal < worldSize then
    (evs, some (FoldError.insufficientValidationSet nVal worldSize))
  else
    let evs := evs ++ [FoldEvent.trainLoaderBuilt, FoldEvent.valLoaderBuilt,
                       FoldEvent.stepsPerEpochSet, FoldEvent.lossFnBuilt]
    if boundaryLosses.contains lossName && !useDtms then
      (evs, some (FoldError.valueErrorDtmsRequired lossName))
    else
      (evs ++ [FoldEvent.modelBuilt, FoldEvent.ddpWrapped,
               FoldEvent.optimizerBuilt, FoldEvent.schedulerBuilt], none)

/-- C4 counterexample: selecting the boundary loss `"bl"` without
distance-transform maps raises a plain `ValueError` — not a
`ConfigurationError` — and only after both the training and validation
data loaders have been allocated for the fold. -/
theorem boundary_loss_check_after_loader_alloc :
    (foldSetup false "bl" 2 1).2 = some (FoldError.valueErrorDtmsRequired "bl") ∧
    (foldSetup false "bl" 2 1).2 ≠ some FoldError.configurationError ∧
    FoldEvent.trainLoaderBuilt ∈ (foldSetup false "bl" 2 1).1 ∧
    FoldEvent.valLoaderBuilt ∈ (foldSetup false "bl" 2 1).1 := by
  refine ⟨rfl, ?_, ?_, ?_⟩ <;> decide

/-- C4 amended: whenever a boundary-based loss (`bl`, `hdl`, `gsl`) is
selected without `--use-dtms` and the validation-size check passes, the
fold setup raises a `ValueError` (not a `ConfigurationError`); the raise
happens after the data loaders are allocated but before the model is
built. -/
theorem boundary_loss_without_dtms_raises_value_error :
    ∀ (lossName : String) (nVal worldSize : ℕ),
      boundaryLosses.contains lossName = true →
      worldSize ≤ nVal →
      (foldSetup false lossName nVal worldSize).2
          = some (FoldError.valueErrorDtmsRequired lossName) ∧
      FoldEvent.trainLoaderBuilt ∈ (foldSetup false lossName nVal worldSize).1 ∧
      FoldEvent.valLoaderBuilt ∈ (foldSetup false lossName nVal worldSize).1 ∧
      FoldEvent.modelBuilt ∉ (foldSetup false lossName nVal worldSize).1 := by
  intro lossName nVal worldSize hloss hsize
  have hlt : ¬ nVal < worldSize := not_lt.mpr hsize
  have hcond : (boundaryLosses.contains lossName && !(false : Bool)) = true := by
    rw [hloss]; rfl
  have hres : foldSetup false lossName nVal worldSize
      = ([FoldEvent.splitPerformed, FoldEvent.trainLoaderBuilt,
          FoldEvent.valLoaderBuilt, FoldEvent.stepsPerEpochSet,
          FoldEvent.lossFnBuilt],
         some (FoldError.valueErrorDtmsRequired lossName)) := by
    simp only [foldSetup, if_neg hlt, hcond, if_pos]
    rfl
  rw [hres]
  refine ⟨rfl, ?_, ?_, ?_⟩ <;> simp

/-- C4 amended, witness at `lossName = "bl"`, `nVal = 2`,
`worldSize = 1`. -/
theorem boundary_loss_without_dtms_raises_value_error_witness :
    (foldSetup false "bl" 2 1).2
        = some (FoldError.valueErrorDtmsRequired "bl") ∧
    FoldEvent.trainLoaderBuilt ∈ (foldSetup false "bl" 2 1).1 ∧
    FoldEvent.valLoaderBuilt ∈ (foldSetup false "bl" 2 1).1 ∧
    FoldEvent.modelBuilt ∉ (foldSetup false "bl" 2 1).1 :=
  boundary_loss_without_dtms_raises_value_error "bl" 2 1 (by decide)
    (by decide)

/-- C5: the fold prologue raises `InsufficientValidationSetError` iff
the validation subset is strictly smaller than `world_size` (so at exact
equality no such error is raised), and when it is raised neither data
loader has been constructed yet. -/
theorem insufficient_validation_iff :
    ∀ (useDtms : Bool) (lossName : String) (nVal worldSize : ℕ),
      ((foldSetup useDtms lossName nVal worldSize).2
          = some (FoldError.insufficientValidationSet nVal worldSize)
        ↔ nVal < worldSize) ∧
      (nVal < worldSize →
        FoldEvent.trainLoaderBuilt ∉ (foldSetup useDtms lossName nVal worldSize).1 ∧
        FoldEvent.valLoaderBuilt ∉ (foldSetup useDtms lossName nVal worldSize).1) := by
  intro useDtms lossName nVal worldSize
  by_cases h : nVal < worldSize
  · refine ⟨⟨fun _ => h, fun _ => ?_⟩, fun _ => ?_⟩
    · simp [foldSetup, if_pos h]
    · constructor <;> simp [foldSetup, if_pos h]
  · refine ⟨⟨fun habs => ?_, fun habs => absurd habs h⟩, fun habs => absurd habs h⟩
    rw [foldSetup] at habs
    simp only [if_neg h] at habs
    rcases hb : (boundaryLosses.contains lossName && !useDtms) with _ | _
    · rw [if_neg (by rw [hb]; exact Bool.false_ne_true)] at habs
      exact Option.noConfusion habs
    · rw [if_pos hb] at habs
      exact FoldError.noConfusion (Option.some.inj habs)

/-- C5 witness: at `nVal = 1 < 2 = worldSize` the error is raised and no
loader was built; at `nVal = worldSize = 2` it is not raised. -/
theorem insufficient_validation_iff_witness :
    ((foldSetup true "dice" 1 2).2
        = some (FoldError.insufficientValidationSet 1 2) ∧
      FoldEvent.trainLoaderBuilt ∉ (foldSetup true "dice" 1 2).1) ∧
    (foldSetup true "dice" 2 2).2
        ≠ some (FoldError.insufficientValidationSet 2 2) := by
  refine ⟨⟨?_, ?_⟩, ?_⟩
  · exact ((insufficient_validation_iff true "dice" 1 2).1).mpr (by decide)
  · exact (((insufficient_validation_iff true "dice" 1 2).2) (by decide)).1
  · intro habs
    exact absurd (((insufficient_validation_iff true "dice" 2 2).1).mp habs)
      (by decide)

/-! ## The per-fold epoch loop (`Trainer.train`, `for epoch in range(...)`)

As written in the source, the epoch loop contains no training step: on
rank 0 each iteration runs a debug loop that pulls batches, writes their
image and label arrays to NIfTI files named by an ever-growing
`patch_counter`, and stops once the counter reaches 50; ranks other
than 0 only call `model.train(True)`. After the epoch loop (still inside
the fold loop) execution reaches `import ipdb; ipdb.set_trace()`. The
optimizer/scheduler/reduce/barrier/validation statements are dedented
out of the fold loop entirely, so they never appear in these traces. -/

/-- Events of the per-fold epoch loop, plus the events the spec expects
there (which the traces never contain). -/
inductive RunEvent
  | modelTrainMode
  | pullBatch
  | writeImageFile (idx : ℕ)
  | writeImageFile2 (idx : ℕ)
  | writeLabelFile (idx : ℕ)
  | optimizerStep
  | schedulerStep
  | lossReduce
  | barrier
  | validationStep
  | checkpointWrite
  | ipdbTrap
  deriving DecidableEq, Repr

/-- The rank-0 debug step loop
(`for _ in range(steps_per_epoch): if patch_counter >= 50: break; ...`):
given remaining steps, the current `patch_counter` and the number of
image channels, returns the emitted events and the updated counter.
Each non-broken iteration pulls a batch, writes `myimage{c}_00`,
optionally `myimage{c}_01` when there is more than one channel, writes
`mylabel{c}_0`, and increments the counter. -/
def rank0StepLoop : ℕ → ℕ → ℕ → List RunEvent × ℕ
  | 0, c, _ => ([], c)
  | s + 1, c, ch =>
      if 50 ≤ c then ([], c)
      else
        let evs := [RunEvent.pullBatch, RunEvent.writeImageFile c] ++
            (if 1 < ch then [RunEvent.writeImageFile2 c] else []) ++
            [RunEvent.writeLabelFile c]
        let rest := rank0StepLoop s (c + 1) ch
        (evs ++ rest.1, rest.2)

/-- The rank-0 epoch loop (`for epoch in range(epochs)`): each epoch
calls `model.train(True)`, runs the debug step loop, and breaks out of
the epoch loop when `patch_counter >= 50`. -/
def rank0EpochLoop : ℕ → ℕ → ℕ → ℕ → List RunEvent × ℕ
  | 0, _, c, _ => ([], c)
  | e + 1, s, c, ch =>
      let step := rank0StepLoop s c ch
      let evs := RunEvent.modelTrainMode :: step.1
      if 50 ≤ step.2 then (evs, step.2)
      else
        let rest := rank0EpochLoop e s step.2 ch
        (evs ++ rest.1, rest.2)

/-- Rank-0 fold body: `patch_counter = 0`, the epoch loop, then the
unconditional `import ipdb; ipdb.set_trace()`. -/
def rank0FoldBody (epochs stepsPerEpoch channels : ℕ) : List RunEvent :=
  (rank0EpochLoop epochs stepsPerEpoch 0 channels).1 ++ [RunEvent.ipdbTrap]

/-- Fold body on ranks other than 0: each epoch only calls
`model.train(True)` (the `rank == 0` debug block is skipped, the
counter stays 0 so the epoch-level break never fires), then the
`ipdb.set_trace()` is reached. -/
def rankOtherFoldBody (epochs : ℕ) : List RunEvent :=
  List.replicate epochs RunEvent.modelTrainMode ++ [RunEvent.ipdbTrap]

/-- Number of batches pulled from the training loader in a trace. -/
def pullCount (tr : List RunEvent) : ℕ :=
  tr.countP (fun e => match e with | RunEvent.pullBatch => true | _ => false)

/-- The label-file indices written along a trace, in order. -/
def labelIdxs (tr : List RunEvent) : List ℕ :=
  tr.filterMap (fun e => match e with
    | RunEvent.writeLabelFile i => some i
    | _ => none)

/-- Events the rank-0 debug step loop can emit. -/
def isDebugEvent : RunEvent → Bool
  | RunEvent.pullBatch => true
  | RunEvent.writeImageFile _ => true
  | RunEvent.writeImageFile2 _ => true
  | RunEvent.writeLabelFile _ => true
  | _ => false

lemma stepLoop_snd : ∀ (s c ch : ℕ),
    (rank0StepLoop s c ch).2 = c + min s (50 - c) := by
  intro s
  induction s with
  | zero => intro c ch; simp [rank0StepLoop]
  | succ n ih =>
      intro c ch
      by_cases h : 50 ≤ c
      · simp only [rank0StepLoop, if_pos h]
        omega
      · simp only [rank0StepLoop, if_neg h]
        rw [ih]
        omega

lemma pullCount_append (l1 l2 : List RunEvent) :
    pullCount (l1 ++ l2) = pullCount l1 + pullCount l2 := by
  simp [pullCount]

lemma labelIdxs_append (l1 l2 : List RunEvent) :
    labelIdxs (l1 ++ l2) = labelIdxs l1 ++ labelIdxs l2 := by
  simp [labelIdxs]

lemma pullCount_cons_trainMode (l : List RunEvent) :
    pullCount (RunEvent.modelTrainMode :: l) = pullCount l := by
  simp [pullCount]

lemma labelIdxs_cons_trainMode (l : List RunEvent) :
    labelIdxs (RunEvent.modelTrainMode :: l) = labelIdxs l := by
  simp [labelIdxs]

lemma pullCount_stepEvents (c ch : ℕ) :
    pullCount ([RunEvent.pullBatch, RunEvent.writeImageFile c] ++
        (if 1 < ch then [RunEvent.writeImageFile2 c] else []) ++
        [RunEvent.writeLabelFile c]) = 1 := by
  by_cases hch : 1 < ch <;> simp [pullCount, hch]

lemma labelIdxs_stepEvents (c ch : ℕ) :
    labelIdxs ([RunEvent.pullBatch, RunEvent.writeImageFile c] ++
        (if 1 < ch then [RunEvent.writeImageFile2 c] else []) ++
        [RunEvent.writeLabelFile c]) = [c] := by
  by_cases hch : 1 < ch <;> simp [labelIdxs, hch]

lemma stepLoop_pullCount : ∀ (s c ch : ℕ),
    pullCount (rank0StepLoop s c ch).1 = min s (50 - c) := by
  intro s
  induction s with
  | zero => intro c ch; simp [rank0StepLoop, pullCount]
  | succ n ih =>
      intro c ch
      by_cases h : 50 ≤ c
      · simp only [rank0StepLoop, if_pos h, pullCount, List.countP_nil]
        omega
      · simp only [rank0StepLoop, if_neg h]
        rw [pullCount_append, pullCount_stepEvents, ih]
        omega

lemma stepLoop_labelIdxs : ∀ (s c ch : ℕ),
    labelIdxs (rank0StepLoop s c ch).1 = List.range' c (min s (50 - c)) := by
  intro s
  induction s with
  | zero => intro c ch; simp [rank0StepLoop, labelIdxs]
  | succ n ih =>
      intro c ch
      by_cases h : 50 ≤ c
      · have h0 : min (n + 1) (50 - c) = 0 := by omega
        simp [rank0StepLoop, if_pos h, labelIdxs, h0]
      · have hmin : min (n + 1) (50 - c) = min n (50 - (c + 1)) + 1 := by
          omega
        rw [hmin, List.range'_succ]
        simp only [rank0StepLoop, if_neg h]
        rw [labelIdxs_append, labelIdxs_stepEvents, ih]
        rfl

lemma stepLoop_events : ∀ (s c ch : ℕ) (x : RunEvent),
    x ∈ (rank0StepLoop s c ch).1 → isDebugEvent x = true := by
  intro s
  induction s with
  | zero => intro c ch x hx; simp [rank0StepLoop] at hx
  | succ n ih =>
      intro c ch x hx
      by_cases h : 50 ≤ c
      · simp [rank0StepLoop, if_pos h] at hx
      · simp only [rank0StepLoop, if_neg h, List.mem_append] at hx
        rcases hx with ((hx | hx) | hx) | hx
        · rcases List.mem_cons.mp hx with rfl | hx
          · rfl
          · rcases List.mem_singleton.mp hx with rfl; rfl
        · by_cases hch : 1 < ch
          · rw [if_pos hch] at hx
            rcases List.mem_singleton.mp hx with rfl; rfl
          · rw [if_neg hch] at hx
            exact absurd hx (List.not_mem_nil x)
        · rcases List.mem_singleton.mp hx with rfl; rfl
        · exact ih (c + 1) ch x hx

lemma epochLoop_pullCount : ∀ (e s c ch : ℕ),
    pullCount (rank0EpochLoop e s c ch).1 = min (e * s) (50 - c) := by
  intro e
  induction e with
  | zero => intro s c ch; simp [rank0EpochLoop, pullCount]
  | succ n ih =>
      intro s c ch
      simp only [rank0EpochLoop]
      have hstep := stepLoop_pullCount s c ch
      have hsnd := stepLoop_snd s c ch
      have hmul : (n + 1) * s = n * s + s := by ring
      have hle : s ≤ (n + 1) * s := by
        calc s = 1 * s := (one_mul s).symm
        _ ≤ (n + 1) * s := Nat.mul_le_mul_right s (by omega)
      by_cases h : 50 ≤ (rank0StepLoop s c ch).2
      · rw [if_pos h, pullCount_cons_trainMode, hstep]
        rw [hsnd] at h
        omega
      · rw [if_neg h, pullCount_append, pullCount_cons_trainMode, hstep,
          ih, hsnd]
        rw [hsnd] at h
        rw [hmul] at *
        omega

lemma epochLoop_labelIdxs : ∀ (e s c ch : ℕ),
    labelIdxs (rank0EpochLoop e s c ch).1
      = List.range' c (min (e * s) (50 - c)) := by
  intro e
  induction e with
  | zero => intro s c ch; simp [rank0EpochLoop, labelIdxs]
  | succ n ih =>
      intro s c ch
      simp only [rank0EpochLoop]
      have hstep := stepLoop_labelIdxs s c ch
      have hsnd := stepLoop_snd s c ch
      have hmul : (n + 1) * s = n * s + s := by ring
      have hle : s ≤ (n + 1) * s := by
        calc s = 1 * s := (one_mul s).symm
        _ ≤ (n + 1) * s := Nat.mul_le_mul_right s (by omega)
      by_cases h : 50 ≤ (rank0StepLoop s c ch).2
      · rw [if_pos h, labelIdxs_cons_trainMode, hstep]
        have heq : min s (50 - c) = min ((n + 1) * s) (50 - c) := by
          rw [hsnd] at h
          rw [hmul] at *
          omega
        rw [heq]
      · rw [if_neg h, labelIdxs_append, labelIdxs_cons_trainMode, hstep,
          ih, hsnd]
        rw [hsnd] at h
        have hns : min s (50 - c) = s := by omega
        rw [hns]
        have h2 : s + min (n * s) (50 - (c + s))
            = min ((n + 1) * s) (50 - c) := by
          rw [hmul] at *
          omega
        rw [← h2, List.range'_append_1]
        have h3 : min (n * s) (50 - (c + s)) + s
            = s + min (n * s) (50 - (c + s)) := by omega
        rw [h3]

lemma epochLoop_events : ∀ (e s c ch : ℕ) (x : RunEvent),
    x ∈ (rank0EpochLoop e s c ch).1 →
      x = RunEvent.modelTrainMode ∨ isDebugEvent x = true := by
  intro e
  induction e with
  | zero => intro s c ch x hx; simp [rank0EpochLoop] at hx
  | succ n ih =>
      intro s c ch x hx
      simp only [rank0EpochLoop] at hx
      by_cases h : 50 ≤ (rank0StepLoop s c ch).2
      · rw [if_pos h] at hx
        rcases List.mem_cons.mp hx with hx | hx
        · exact Or.inl hx
        · exact Or.inr (stepLoop_events s c ch x hx)
      · rw [if_neg h] at hx
        rcases List.mem_append.mp hx with hx | hx
        · rcases List.mem_cons.mp hx with hx | hx
          · exact Or.inl hx
          · exact Or.inr (stepLoop_events s c ch x hx)
        · exact ih s (rank0StepLoop s c ch).2 ch x hx

lemma foldBody_events : ∀ (e s ch : ℕ) (x : RunEvent),
    x ∈ rank0FoldBody e s ch →
      x = RunEvent.modelTrainMode ∨ isDebugEvent x = true ∨
        x = RunEvent.ipdbTrap := by
  intro e s ch x hx
  rcases List.mem_append.mp hx with hx | hx
  · rcases epochLoop_events e s 0 ch x hx with hx | hx
    · exact Or.inl hx
    · exact Or.inr (Or.inl hx)
  · exact Or.inr (Or.inr (List.mem_singleton.mp hx))

lemma rankOther_events : ∀ (e : ℕ) (x : RunEvent),
    x ∈ rankOtherFoldBody e →
      x = RunEvent.modelTrainMode ∨ x = RunEvent.ipdbTrap := by
  intro e x hx
  rcases List.mem_append.mp hx with hx | hx
  · exact Or.inl (List.eq_of_mem_replicate hx)
  · exact Or.inr (List.mem_singleton.mp hx)

/-- C9: on rank 0, for every epoch count, steps-per-epoch and channel
count, the per-fold epoch loop pulls exactly `min 50 (epochs * steps)`
batches (so at most 50 per fold, and exactly 50 once enough steps are
available — the counter-triggered break out of both loops); the label
files written are indexed `0, 1, 2, …` consecutively across epochs (the
counter is never reset); no optimizer update, scheduler step or loss
reduction ever occurs in the loop; and the trace ends at the
`ipdb.set_trace()` debugger trap. -/
theorem rank0_debug_loop_behavior :
    ∀ (epochs steps channels : ℕ),
      pullCount (rank0FoldBody epochs steps channels)
          = min 50 (epochs * steps) ∧
      labelIdxs (rank0FoldBody epochs steps channels)
          = List.range (min 50 (epochs * steps)) ∧
      RunEvent.optimizerStep ∉ rank0FoldBody epochs steps channels ∧
      RunEvent.schedulerStep ∉ rank0FoldBody epochs steps channels ∧
      RunEvent.lossReduce ∉ rank0FoldBody epochs steps channels ∧
      (rank0FoldBody epochs steps channels).getLast?
          = some RunEvent.ipdbTrap := by
  intro e s ch
  have hmin : min (e * s) (50 - 0) = min 50 (e * s) := by omega
  refine ⟨?_, ?_, ?_, ?_, ?_, ?_⟩
  · rw [rank0FoldBody, pullCount, List.countP_append, ← pullCount,
      epochLoop_pullCount, hmin]
    simp [pullCount]
  · rw [rank0FoldBody, labelIdxs, List.filterMap_append, ← labelIdxs,
      epochLoop_labelIdxs, hmin, List.range_eq_range']
    simp [labelIdxs]
  · intro hx
    rcases foldBody_events e s ch _ hx with hx | hx | hx <;> simp [isDebugEvent] at hx
  · intro hx
    rcases foldBody_events e s ch _ hx with hx | hx | hx <;> simp [isDebugEvent] at hx
  · intro hx
    rcases foldBody_events e s ch _ hx with hx | hx | hx <;> simp [isDebugEvent] at hx
  · rw [rank0FoldBody, List.getLast?_append]
    rfl

/-- C1: the per-step training sequence never executes inside the epoch
loop — the rank-0 fold body contains no optimizer step, no
learning-rate-scheduler step and no loss reduction, and the fold body of
every other rank contains none of these and never even pulls a batch
(its epoch iterations only toggle train mode). The training-step
statements are dedented outside the fold loop and are not part of any
epoch. -/
theorem no_training_step_in_epoch_loop :
    ∀ (epochs steps channels : ℕ),
      RunEvent.optimizerStep ∉ rank0FoldBody epochs steps channels ∧
      RunEvent.optimizerStep ∉ rankOtherFoldBody epochs ∧
      RunEvent.schedulerStep ∉ rankOtherFoldBody epochs ∧
      RunEvent.lossReduce ∉ rankOtherFoldBody epochs ∧
      RunEvent.pullBatch ∉ rankOtherFoldBody epochs := by
  intro e s ch
  refine ⟨?_, ?_, ?_, ?_, ?_⟩
  · intro hx
    rcases foldBody_events e s ch _ hx with hx | hx | hx <;> simp [isDebugEvent] at hx
  all_goals
    intro hx
  all_goals
    rcases rankOther_events e _ hx with hx | hx <;> simp [isDebugEvent] at hx

/-- C7: no `barrier()` call occurs anywhere in the per-fold epoch loop,
on rank 0 or on any other rank — in particular no barrier separates the
training sub-loop from validation inside an epoch (no validation occurs
inside an epoch either); the two `dist.barrier()` statements of the
source are dedented outside the fold loop. -/
theorem no_barrier_in_fold_loop :
    ∀ (epochs steps channels : ℕ),
      RunEvent.barrier ∉ rank0FoldBody epochs steps channels ∧
      RunEvent.validationStep ∉ rank0FoldBody epochs steps channels ∧
      RunEvent.barrier ∉ rankOtherFoldBody epochs := by
  intro e s ch
  refine ⟨?_, ?_, ?_⟩
  · intro hx
    rcases foldBody_events e s ch _ hx with hx | hx | hx <;> simp [isDebugEvent] at hx
  · intro hx
    rcases foldBody_events e s ch _ hx with hx | hx | hx <;> simp [isDebugEvent] at hx
  · intro hx
    rcases rankOther_events e _ hx with hx | hx <;> simp [isDebugEvent] at hx

/-- C6: no epoch ever reaches a validation pass or a checkpoint write:
the rank-0 fold body contains no validation step and no checkpoint
write (the comparison of the running validation mean against the best
value, and the `torch.save` it guards, sit in code dedented outside the
fold loop). -/
theorem no_checkpoint_write_in_fold_loop :
    ∀ (epochs steps channels : ℕ),
      RunEvent.checkpointWrite ∉ rank0FoldBody epochs steps channels ∧
      RunEvent.validationStep ∉ rankOtherFoldBody epochs ∧
      RunEvent.checkpointWrite ∉ rankOtherFoldBody epochs := by
  intro e s ch
  refine ⟨?_, ?_, ?_⟩
  · intro hx
    rcases foldBody_events e s ch _ hx with hx | hx | hx <;> simp [isDebugEvent] at hx
  · intro hx
    rcases rankOther_events e _ hx with hx | hx <;> simp [isDebugEvent] at hx
  · intro hx
    rcases rankOther_events e _ hx with hx | hx <;> simp [isDebugEvent] at hx

/-! ## Train/validation split (`Trainer.train`, fold-loop split block)

The source splits with scikit-learn's
`train_test_split(..., test_size=val_percent, random_state=seed_val)`.
That library function is an external collaborator; it is modelled here
as a deterministic function of the resolved seed — when `random_state`
is `none` the ambient global RNG state is used instead, which is how a
call without an explicit seed would behave. -/

/-- Modelled from the spec: the seeded pseudo-random number generator
behind scikit-learn's shuffle, abstracted as a linear congruential
step. Only determinism in the seed matters for the claims. -/
def lcgNext (s : ℕ) : ℕ := (1103515245 * s + 12345) % 2147483648

/-- Remove and return the element at index `i`. -/
def drawIndex (l : List ℕ) (i : ℕ) : ℕ × List ℕ :=
  (l.getD i 0, l.take i ++ l.drop (i + 1))

/-- Modelled from the spec: a Fisher–Yates-style shuffle driven by the
seeded generator, with fuel bounding the recursion. -/
def shuffleAux : ℕ → ℕ → List ℕ → List ℕ
  | 0, _, l => l
  | fuel + 1, s, l =>
      match l with
      | [] => []
      | a :: rest =>
          let d := drawIndex (a :: rest) (s % (rest.length + 1))
          d.1 :: shuffleAux fuel (lcgNext s) d.2

/-- Modelled from the spec: the seeded permutation of `0, …, n-1` used
to shuffle the examples before splitting. -/
def permutationOfSeed (seed n : ℕ) : List ℕ :=
  shuffleAux n seed (List.range n)

/-- Number of validation examples for fraction `p` of `n` examples
(scikit-learn uses the ceiling for a fractional `test_size`). -/
def nTestOf (p : ℚ) (n : ℕ) : ℕ := ⌈p * n⌉₊

/-- `train_test_split(xs, ys, test_size=p, random_state=randomState)`:
resolve the seed (falling back to the ambient RNG state when no seed is
passed), shuffle the index range, and return
`(xs_train, xs_test, ys_train, ys_test)`. -/
def train_test_split {α β : Type} (globalRngState : ℕ)
    (randomState : Option ℕ) (p : ℚ) (xs : List α) (ys : List β) :
    List α × List α × List β × List β :=
  let seed := randomState.getD globalRngState
  let n := xs.length
  let nTest := nTestOf p n
  let perm := permutationOfSeed seed n
  let testIdx := perm.take nTest
  let trainIdx := perm.drop nTest
  (trainIdx.filterMap (fun i => xs[i]?), testIdx.filterMap (fun i => xs[i]?),
   trainIdx.filterMap (fun i => ys[i]?), testIdx.filterMap (fun i => ys[i]?))

/-- Result of the per-fold split block. -/
structure FoldSplit where
  trainImages : List String
  valImages : List String
  trainLabels : List String
  valLabels : List String
  trainDtms : Option (List String)
  deriving DecidableEq, Repr

/-- The split block of `Trainer.train`: with DTMs the labels are zipped
with the DTM paths, split together, and unzipped; without DTMs the
labels are split directly and `train_dtms` is `None`. -/
def foldDataSplit (globalRngState : ℕ) (useDtms : Bool) (seedVal : ℕ)
    (valPercent : ℚ) (trainImages trainLabels trainDtms : List String) :
    FoldSplit :=
  if useDtms then
    let r := train_test_split globalRngState (some seedVal) valPercent
      trainImages (trainLabels.zip trainDtms)
    { trainImages := r.1, valImages := r.2.1,
      trainLabels := r.2.2.1.map Prod.fst,
      valLabels := r.2.2.2.map Prod.fst,
      trainDtms := some (r.2.2.1.map Prod.snd) }
  else
    let r := train_test_split globalRngState (some seedVal) valPercent
      trainImages trainLabels
    { trainImages := r.1, valImages := r.2.1,
      trainLabels := r.2.2.1, valLabels := r.2.2.2,
      trainDtms := none }

/-- C8: the per-fold split is deterministic — it depends only on the
configured seed, the validation fraction and the ordered input path
lists, not on the ambient RNG state, because `Trainer.train` always
passes `random_state=seed_val`; in particular performing the split twice
(under arbitrary, possibly different, ambient RNG states) yields
identical train and validation partitions. -/
theorem fold_split_deterministic :
    ∀ (g g' : ℕ) (useDtms : Bool) (seedVal : ℕ) (valPercent : ℚ)
      (imgs lbls dtms : List String),
      foldDataSplit g useDtms seedVal valPercent imgs lbls dtms
        = foldDataSplit g' useDtms seedVal valPercent imgs lbls dtms := by
  intro g g' useDtms seedVal valPercent imgs lbls dtms
  cases useDtms <;> rfl

/-! ## Preprocessing driver (`preprocess_dataset` in
`src/preprocess_data/preprocess.py`)

The per-patient loop is modelled as a trace generator: events for
loading the `fg_bboxes.csv` table, converting an example (the
`no_preprocess` branch) and preprocessing an example; the Python-level
binding state of the local name `fg_bboxes` is threaded through, and
reading it while unbound raises the unbound-local error. -/

/-- Events of the preprocessing loop. -/
inductive PreprocEvent
  | loadFgBboxes
  | convertExample (i : ℕ)
  | preprocessExample (i : ℕ)
  deriving DecidableEq, Repr

/-- The only failure the model needs: reading the never-assigned local
`fg_bboxes` for the given patient index. -/
inductive PreprocError
  | unboundLocalFgBboxes (patient : ℕ)
  deriving DecidableEq, Repr

/-- One iteration of the loop body for patient `i`: in the
`no_preprocess` branch the example is converted; otherwise
`fg_bboxes` is (re)read from `fg_bboxes.csv` when `crop_to_fg` is set,
and then `fg_bboxes.iloc[i]` is evaluated — which fails if the name was
never bound. Returns emitted events, the updated binding state, and the
error if one was raised. -/
def preprocStep (noPreprocess cropToFg bound : Bool) (i : ℕ) :
    List PreprocEvent × Bool × Option PreprocError :=
  if noPreprocess then ([PreprocEvent.convertExample i], bound, none)
  else
    let load := if cropToFg then ([PreprocEvent.loadFgBboxes], true)
      else ([], bound)
    if load.2 then
      (load.1 ++ [PreprocEvent.preprocessExample i], load.2, none)
    else
      (load.1, load.2, some (PreprocError.unboundLocalFgBboxes i))

/-- The `for i in pb.track(range(len(df)))` loop: runs the remaining
iterations starting at patient `i` with binding state `bound`, stopping
at the first raised error. -/
def preprocLoopAux (noPreprocess cropToFg : Bool) :
    ℕ → ℕ → Bool → List PreprocEvent × Option PreprocError
  | 0, _, _ => ([], none)
  | k + 1, i, bound =>
      let step := preprocStep noPreprocess cropToFg bound i
      match step.2.2 with
      | some e => (step.1, some e)
      | none =>
          let rest := preprocLoopAux noPreprocess cropToFg k (i + 1) step.2.1
          (step.1 ++ rest.1, rest.2)

/-- `preprocess_dataset` over `nPatients` rows of `train_paths.csv`:
the local `fg_bboxes` starts unbound and the loop starts at patient 0. -/
def preprocess_dataset (noPreprocess cropToFg : Bool) (nPatients : ℕ) :
    List PreprocEvent × Option PreprocError :=
  preprocLoopAux noPreprocess cropToFg nPatients 0 false

lemma preprocess_no_crop_no_pre_trace : ∀ (n : ℕ),
    (preprocess_dataset false false n).1 = [] := by
  intro n
  cases n <;> rfl

/-- C10: with preprocessing enabled (`no_preprocess` false) and
`crop_to_fg` false, the run fails on the first patient with the
unbound-local error on `fg_bboxes`, before converting or preprocessing
any example; and the `fg_bboxes` table is only ever loaded when
`crop_to_fg` is true. -/
theorem fg_bboxes_unbound_when_not_cropping :
    ∀ n : ℕ, 0 < n →
      (preprocess_dataset false false n).2
          = some (PreprocError.unboundLocalFgBboxes 0) ∧
      (preprocess_dataset false false n).1 = [] ∧
      (∀ (cropToFg : Bool) (m : ℕ),
        PreprocEvent.loadFgBboxes ∈ (preprocess_dataset false cropToFg m).1 →
          cropToFg = true) := by
  intro n hn
  refine ⟨?_, preprocess_no_crop_no_pre_trace n, ?_⟩
  · cases n with
    | zero => omega
    | succ k => rfl
  · intro cropToFg m hm
    cases cropToFg
    · rw [preprocess_no_crop_no_pre_trace m] at hm
      exact absurd hm (List.not_mem_nil _)
    · rfl

/-- C10 witness at `n = 1`. -/
theorem fg_bboxes_unbound_when_not_cropping_witness :
    (preprocess_dataset false false 1).2
        = some (PreprocError.unboundLocalFgBboxes 0) ∧
    (preprocess_dataset false false 1).1 = [] ∧
    (∀ (cropToFg : Bool) (m : ℕ),
      PreprocEvent.loadFgBboxes ∈ (preprocess_dataset false cropToFg m).1 →
        cropToFg = true) :=
  fg_bboxes_unbound_when_not_cropping 1 (by decide)

end MIST
